import Mathlib

/-!
Verification development for the wiperf data-transfer and feedback plane
(`src/dtransfer`), a multi-interface UDP throughput measurement tool.

The definitions below are a shallow embedding of the C++ sources:

* `src/dtransfer/dreceiver/FeedbackSender.cc` — feedback-report encoder
  (`FeedbackSender::commThread`), throughput computation and the
  counter-drain handoff writes;
* `src/dtransfer/dsender/FeedbackReceiver.cc` — feedback-report decoder
  (`FeedbackReceiver::readFeedbackMessage`);
* `src/dtransfer/dreceiver/DataReceiver.cc` — per-interface receive worker
  (byte accumulation and drain application);
* `src/dtransfer/WiperfUtility.cc` — configuration readers (`readPort`,
  `readIfaces`, `readIfnames`) and the 64-bit byte-order helpers;
* `src/util/configfile.cc` — `ConfigFile::Value`;
* `src/dtransfer/DataTransfer.cc` — `closeIfaceSocks`, `stopThread`;
* `src/dtransfer/dsender/DataSender.cc` — `pickRandomIface`.

Modelling conventions:

* machine integers are `Nat` with explicit `% 2^w` where the C++ code can
  wrap (`uint32_t` snapshots and products, the `uint64_t` byte counter);
* byte buffers are `List Nat`, each element one byte value;
* the target platform is little-endian Linux/x86-ARM, as assumed by the
  runtime endianness test in `WiperfUtility::{htonll,ntohll}`: a raw
  `memcpy` of an integer therefore stores little-endian bytes, while a
  `memcpy` of an `htonl`/`htonll`-converted integer stores big-endian bytes;
* C++ exceptions are `Except` values tagged with the exception's dynamic
  kind, so that catch-clause matching can be modelled;
* thread interleavings are sequences of atomic events over an explicit
  shared state (one interface's counter cell and pending-drain cell).
-/

/-! ## Byte-level primitives -/

/-- Big-endian byte image of `n`, exactly `k` bytes (the low `8*k` bits of
`n`, most significant byte first).  This is what `memcpy` of an
`htonl`/`htonll`-converted value stores into the packet buffer. -/
def toBytesBE : Nat → Nat → List Nat
  | 0, _ => []
  | k + 1, n => toBytesBE k (n / 256) ++ [n % 256]

/-- Little-endian byte image of `n`, exactly `k` bytes: what a raw `memcpy`
of a host integer stores on the little-endian target. -/
def toBytesLE : Nat → Nat → List Nat
  | 0, _ => []
  | k + 1, n => n % 256 :: toBytesLE k (n / 256)

/-- Value of a big-endian byte list. -/
def fromBytesBE (l : List Nat) : Nat :=
  l.foldl (fun acc b => acc * 256 + b) 0

/-- Read `k` bytes at offset `off` of buffer `buf` and interpret them
big-endian: the model of `memcpy` out of the receive buffer followed by
`ntohl`/`WiperfUtility::ntohll` (which on the little-endian target
byte-swaps, i.e. yields the big-endian value of the copied bytes). -/
def readBE (buf : List Nat) (off k : Nat) : Nat :=
  fromBytesBE ((buf.drop off).take k)

theorem toBytesBE_length (k n : Nat) : (toBytesBE k n).length = k := by
  induction k generalizing n with
  | zero => rfl
  | succ k ih => simp [toBytesBE, ih]

theorem toBytesLE_length (k n : Nat) : (toBytesLE k n).length = k := by
  induction k generalizing n with
  | zero => rfl
  | succ k ih => simp [toBytesLE, ih]

theorem fromBytesBE_append (l : List Nat) (b : Nat) :
    fromBytesBE (l ++ [b]) = fromBytesBE l * 256 + b := by
  simp [fromBytesBE]

theorem fromBytesBE_toBytesBE (k n : Nat) (h : n < 256 ^ k) :
    fromBytesBE (toBytesBE k n) = n := by
  induction k generalizing n with
  | zero =>
    simp [fromBytesBE, toBytesBE]
    omega
  | succ k ih =>
    have hdiv : n / 256 < 256 ^ k := by
      rw [Nat.div_lt_iff_lt_mul (by norm_num)]
      calc n < 256 ^ (k + 1) := h
        _ = 256 ^ k * 256 := by ring
    rw [toBytesBE, fromBytesBE_append, ih _ hdiv]
    omega

theorem readBE_shift (buf : List Nat) (m o k : Nat) :
    readBE buf (m + o) k = readBE (buf.drop m) o k := by
  simp [readBE, List.drop_drop, Nat.add_comm]

theorem readBE_skip (a buf : List Nat) (o k : Nat) :
    readBE (a ++ buf) (a.length + o) k = readBE buf o k := by
  rw [readBE_shift]
  simp [List.drop_left]

theorem readBE_exact (a rest : List Nat) (k : Nat) (h : a.length = k) :
    readBE (a ++ rest) 0 k = fromBytesBE a := by
  subst h
  simp [readBE, List.take_left]

theorem readBE_toBytesBE (n k : Nat) (rest : List Nat) (h : n < 256 ^ k) :
    readBE (toBytesBE k n ++ rest) 0 k = n := by
  rw [readBE_exact _ _ _ (toBytesBE_length k n), fromBytesBE_toBytesBE k n h]

/-! ## Feedback report wire format

Encoder: `FeedbackSender::commThread`, `FeedbackSender.cc` lines 131-244.
Decoder: `FeedbackReceiver::readFeedbackMessage`, `FeedbackReceiver.cc`
lines 134-198. -/

/-- One stored feedback sample, the payload of `FeedbackMessageStruct`
(`FeedbackSender.hpp`): its 12-byte `message` field always holds
`htonll(timestamp)` followed by `htonl(throughput)` (`FeedbackSender.cc`
lines 213-215 and 240). `timestamp` is a `uint64_t`, `throughput` a
`uint32_t`. -/
structure FeedbackMessage where
  timestamp : Nat
  throughput : Nat
  deriving DecidableEq, Repr

/-- The per-interface data of one encoder cycle: the freshly computed
`uint32_t` throughput for slot t (`FeedbackSender.cc` line 210), and the
entries of the history maps `tm1Info` / `tm2Info` for this interface, if
present (lines 222-231). -/
structure IfaceCycle where
  throughput : Nat
  tm1 : Option FeedbackMessage
  tm2 : Option FeedbackMessage
  deriving DecidableEq, Repr

/-- The 12 bytes of one sample: `htonll(timestamp)` then `htonl(throughput)`
(big-endian on the wire, `FeedbackSender.cc` lines 213-215). -/
def sampleBytes (m : FeedbackMessage) : List Nat :=
  toBytesBE 8 m.timestamp ++ toBytesBE 4 m.throughput

/-- One 40-byte per-RAT block of the feedback report (`FeedbackSender.cc`
lines 204-232): 4 bytes of the loop counter `i` copied in HOST (little
endian) byte order (line 217), the 12-byte slot-t sample, then slot t-1 if
this interface is in `tm1Info` and slot t-2 if additionally in `tm2Info`
(nested `if`s, lines 222-231); slots not written keep the `memset` zero
fill of the buffer (line 199). -/
def ratBlock (i ts : Nat) (c : IfaceCycle) : List Nat :=
  toBytesLE 4 i ++ sampleBytes ⟨ts, c.throughput⟩ ++
    match c.tm1 with
    | none => List.replicate 12 0 ++ List.replicate 12 0
    | some m1 =>
      sampleBytes m1 ++
        match c.tm2 with
        | none => List.replicate 12 0
        | some m2 => sampleBytes m2

/-- The per-RAT blocks for the interfaces of `dataReceiverIfnames`, in
list order, block `p` carrying loop-counter value `i + p`
(`FeedbackSender.cc` lines 202-244; the top-level call has `i = 0`). -/
def encodeBlocks (ts : Nat) : Nat → List IfaceCycle → List Nat
  | _, [] => []
  | i, c :: rest => ratBlock i ts c ++ encodeBlocks ts (i + 1) rest

/-- The full feedback report built by one `FeedbackSender::commThread`
cycle (`FeedbackSender.cc` lines 191-244): `htonl(numRats)` where
`numRats` is the `uint32_t` cast of the interface count (line 191-200),
followed by one 40-byte block per interface.  `ts` is the cycle's rounded
timestamp, shared by every interface's slot-t sample (lines 156-159, 177). -/
def encodeReport (ts : Nat) (cycles : List IfaceCycle) : List Nat :=
  toBytesBE 4 (cycles.length % 2 ^ 32) ++ encodeBlocks ts 0 cycles

/-- The decoded record handed to the database, restricted to the fields
the decoder computes from the wire message (`FeedbackReceiver.cc` lines
174-192).  The position/speed context fields of `DatabaseInfo`
(`DatabaseInfo.hpp`) are C `double`s copied verbatim from one GPS fix per
call; they carry no wire-format content and are omitted from the model. -/
structure DbRecord where
  rat : String
  timestamp : Nat
  throughput : Nat
  numBits : Nat
  deriving DecidableEq, Repr

/-- Records produced from one 40-byte block at `offset`
(`FeedbackReceiver.cc` lines 162-194): for each of the three 12-byte
entries, read `ntohll(timestamp)`; if it is positive, read
`ntohl(throughput)` and emit one record for interface `ifaceName`, with
`numBits = throughput * feedbackInterval` in `uint32_t` arithmetic
(line 183). -/
def decodeRatEntries (buf : List Nat) (offset : Nat) (ifaceName : String)
    (fbI : Nat) : List DbRecord :=
  (List.range 3).flatMap fun j =>
    let entryOffset := offset + 4 + j * 12
    let timestamp := readBE buf entryOffset 8
    if 0 < timestamp then
      [{ rat := ifaceName, timestamp := timestamp,
         throughput := readBE buf (entryOffset + 8) 4,
         numBits := readBE buf (entryOffset + 8) 4 * fbI % 2 ^ 32 }]
    else []

/-- The decoder's main loop (`FeedbackReceiver.cc` lines 152-195), iterating
block index `i` while `n` blocks remain: look up the block's interface name
positionally via `dataSenderIfnames.at(i)` — `none` models the
`std::out_of_range` exception that aborts the whole call — and append the
block's records.  The wire `interfaceIndex` read at lines 155-157 is
decoded into a local and never used, so it does not appear here. -/
def decodeRats (buf : List Nat) (names : List String) (fbI : Nat) :
    Nat → Nat → Option (List DbRecord)
  | _, 0 => some []
  | i, n + 1 =>
    match names[i]? with
    | none => none
    | some nm =>
      (decodeRats buf names fbI (i + 1) n).map
        (decodeRatEntries buf (4 + i * 40) nm fbI ++ ·)

/-- `FeedbackReceiver::readFeedbackMessage` (`FeedbackReceiver.cc` lines
134-198): read `ntohl(numberOfRats)` from the first four bytes, then decode
that many positional blocks. -/
def readFeedbackMessage (buf : List Nat) (names : List String) (fbI : Nat) :
    Option (List DbRecord) :=
  decodeRats buf names fbI 0 (readBE buf 0 4)

/-! ## Round-trip infrastructure -/

/-- Well-formedness of a stored sample: its fields fit their declared C++
types (`uint64_t` timestamp, `uint32_t` throughput). -/
def FeedbackMessage.wf (m : FeedbackMessage) : Bool :=
  decide (m.timestamp < 2 ^ 64) && decide (m.throughput < 2 ^ 32)

/-- Well-formedness of one encoder cycle's per-interface data. -/
def IfaceCycle.wf (c : IfaceCycle) : Bool :=
  decide (c.throughput < 2 ^ 32) && c.tm1.all FeedbackMessage.wf &&
    c.tm2.all FeedbackMessage.wf

/-- The records the decoder is expected to produce from one 12-byte slot
holding timestamp `ts` and throughput `tput`: one record if `ts` is
non-zero, none otherwise. -/
def slotRecord (nm : String) (fbI ts tput : Nat) : List DbRecord :=
  if 0 < ts then
    [{ rat := nm, timestamp := ts, throughput := tput,
       numBits := tput * fbI % 2 ^ 32 }]
  else []

/-- The records expected from one interface's block: slot t, then slot t-1
when the encoder had a `tm1Info` entry, then slot t-2 when it additionally
had a `tm2Info` entry (mirroring which slots the encoder fills). -/
def ratRecords (nm : String) (fbI ts : Nat) (c : IfaceCycle) : List DbRecord :=
  slotRecord nm fbI ts c.throughput ++
    match c.tm1 with
    | none => []
    | some m1 =>
      slotRecord nm fbI m1.timestamp m1.throughput ++
        match c.tm2 with
        | none => []
        | some m2 => slotRecord nm fbI m2.timestamp m2.throughput

theorem readBE_append_ge (x y : List Nat) (o k : Nat) (h : x.length ≤ o) :
    readBE (x ++ y) o k = readBE y (o - x.length) k :=
  calc readBE (x ++ y) o k
      = readBE (x ++ y) (x.length + (o - x.length)) k := by congr 1; omega
    _ = readBE y (o - x.length) k := readBE_skip ..

theorem toBytesBE_zero (k : Nat) : toBytesBE k 0 = List.replicate k 0 := by
  induction k with
  | zero => rfl
  | succ k ih => simp [toBytesBE, ih, List.replicate_succ']

theorem replicate12_sampleBytes :
    List.replicate 12 0 = sampleBytes ⟨0, 0⟩ := by
  simp [sampleBytes, toBytesBE_zero]

theorem sampleBytes_length (m : FeedbackMessage) :
    (sampleBytes m).length = 12 := by
  simp [sampleBytes, toBytesBE_length]

theorem readBE_sample_ts (m : FeedbackMessage) (rest : List Nat)
    (h : m.timestamp < 2 ^ 64) :
    readBE (sampleBytes m ++ rest) 0 8 = m.timestamp := by
  rw [sampleBytes, List.append_assoc]
  exact readBE_toBytesBE _ _ _ (by norm_num at h ⊢; exact h)

theorem readBE_sample_tput (m : FeedbackMessage) (rest : List Nat)
    (h : m.throughput < 2 ^ 32) :
    readBE (sampleBytes m ++ rest) 8 4 = m.throughput := by
  rw [sampleBytes, List.append_assoc,
    readBE_append_ge _ _ _ _ (by simp [toBytesBE_length])]
  simp only [toBytesBE_length]
  exact readBE_toBytesBE _ _ _ (by norm_num at h ⊢; exact h)

theorem readBE_shift3 (buf : List Nat) (m a b k : Nat) :
    readBE buf (m + a + b) k = readBE (buf.drop m) (a + b) k := by
  rw [Nat.add_assoc, readBE_shift]

theorem readBE_shift4 (buf : List Nat) (m a b c k : Nat) :
    readBE buf (m + a + b + c) k = readBE (buf.drop m) (a + b + c) k := by
  rw [Nat.add_assoc, Nat.add_assoc, readBE_shift, ← Nat.add_assoc]

theorem range3_eq : List.range 3 = [0, 1, 2] := rfl

/-- Decoding a block is position-independent: it only looks at the bytes
from `off` on. -/
theorem decodeRatEntries_shift (buf : List Nat) (off : Nat) (nm : String)
    (fbI : Nat) :
    decodeRatEntries buf off nm fbI = decodeRatEntries (buf.drop off) 0 nm fbI := by
  simp only [decodeRatEntries, range3_eq, List.flatMap_cons, List.flatMap_nil,
    readBE_shift3, readBE_shift4, Nat.zero_add, List.drop_drop]

theorem readBE_after_le4 (i : Nat) (y : List Nat) (o k : Nat) (h : 4 ≤ o) :
    readBE (toBytesLE 4 i ++ y) o k = readBE y (o - 4) k := by
  rw [readBE_append_ge _ _ _ _ (by simpa [toBytesLE_length] using h),
    toBytesLE_length]

theorem readBE_after_sample (m : FeedbackMessage) (y : List Nat) (o k : Nat)
    (h : 12 ≤ o) :
    readBE (sampleBytes m ++ y) o k = readBE y (o - 12) k := by
  rw [readBE_append_ge _ _ _ _ (by simpa [sampleBytes_length] using h),
    sampleBytes_length]

theorem readBE_zero12_ts (rest : List Nat) :
    readBE (List.replicate 12 0 ++ rest) 0 8 = 0 := by
  rw [replicate12_sampleBytes]
  exact readBE_sample_ts _ _ (by norm_num)

theorem readBE_after_zero12 (y : List Nat) (o k : Nat) (h : 12 ≤ o) :
    readBE (List.replicate 12 0 ++ y) o k = readBE y (o - 12) k := by
  rw [replicate12_sampleBytes]
  exact readBE_after_sample _ _ _ _ h

/-- Decoding one encoded block recovers exactly the expected records. -/
theorem decodeRatEntries_ratBlock (i ts fbI : Nat) (c : IfaceCycle)
    (nm : String) (rest : List Nat) (hts : ts < 2 ^ 64) (hc : c.wf = true) :
    decodeRatEntries (ratBlock i ts c ++ rest) 0 nm fbI =
      ratRecords nm fbI ts c := by
  obtain ⟨tput, tm1, tm2⟩ := c
  simp only [IfaceCycle.wf, Bool.and_eq_true, decide_eq_true_eq] at hc
  obtain ⟨⟨h1, h2⟩, h3⟩ := hc
  cases tm1 with
  | none =>
    simp only [ratBlock, ratRecords, decodeRatEntries, range3_eq,
      List.flatMap_cons, List.flatMap_nil, List.append_assoc]
    norm_num [readBE_after_le4, readBE_after_sample, readBE_after_zero12,
      readBE_sample_ts _ _ (by norm_num at hts ⊢; exact hts : (⟨ts, tput⟩ : FeedbackMessage).timestamp < 2 ^ 64),
      readBE_zero12_ts, slotRecord,
      readBE_sample_tput _ _ (by norm_num at h1 ⊢; exact h1 : (⟨ts, tput⟩ : FeedbackMessage).throughput < 2 ^ 32)]
  | some m1 =>
    simp only [Option.all_some, FeedbackMessage.wf, Bool.and_eq_true,
      decide_eq_true_eq] at h2
    cases tm2 with
    | none =>
      simp only [ratBlock, ratRecords, decodeRatEntries, range3_eq,
        List.flatMap_cons, List.flatMap_nil, List.append_assoc]
      norm_num [readBE_after_le4, readBE_after_sample, readBE_after_zero12,
        readBE_sample_ts _ _ (by norm_num at hts ⊢; exact hts : (⟨ts, tput⟩ : FeedbackMessage).timestamp < 2 ^ 64),
        readBE_sample_ts m1 _ h2.1, readBE_sample_tput m1 _ h2.2,
        readBE_zero12_ts, slotRecord,
        readBE_sample_tput _ _ (by norm_num at h1 ⊢; exact h1 : (⟨ts, tput⟩ : FeedbackMessage).throughput < 2 ^ 32)]
    | some m2 =>
      simp only [Option.all_some, FeedbackMessage.wf, Bool.and_eq_true,
        decide_eq_true_eq] at h3
      simp only [ratBlock, ratRecords, decodeRatEntries, range3_eq,
        List.flatMap_cons, List.flatMap_nil, List.append_assoc]
      norm_num [readBE_after_le4, readBE_after_sample, readBE_after_zero12,
        readBE_sample_ts _ _ (by norm_num at hts ⊢; exact hts : (⟨ts, tput⟩ : FeedbackMessage).timestamp < 2 ^ 64),
        readBE_sample_ts m1 _ h2.1, readBE_sample_tput m1 _ h2.2,
        readBE_sample_ts m2 _ h3.1, readBE_sample_tput m2 _ h3.2,
        slotRecord,
        readBE_sample_tput _ _ (by norm_num at h1 ⊢; exact h1 : (⟨ts, tput⟩ : FeedbackMessage).throughput < 2 ^ 32)]

theorem ratBlock_length (i ts : Nat) (c : IfaceCycle) :
    (ratBlock i ts c).length = 40 := by
  obtain ⟨tput, tm1, tm2⟩ := c
  cases tm1 with
  | none => simp [ratBlock, toBytesLE_length, sampleBytes_length]
  | some m1 =>
    cases tm2 with
    | none => simp [ratBlock, toBytesLE_length, sampleBytes_length]
    | some m2 => simp [ratBlock, toBytesLE_length, sampleBytes_length]

theorem encodeBlocks_length (ts : Nat) (i : Nat) (cs : List IfaceCycle) :
    (encodeBlocks ts i cs).length = 40 * cs.length := by
  induction cs generalizing i with
  | nil => simp [encodeBlocks]
  | cons c rest ih =>
    simp [encodeBlocks, ratBlock_length, ih, Nat.mul_succ]
    omega

/-- The decoder's block loop, run over an encoded block sequence starting at
block index `i`, recovers the expected records of every block. -/
theorem decodeRats_encodeBlocks (ts fbI : Nat) (rest : List IfaceCycle) :
    ∀ (nmRest names : List String) (i : Nat) (buf : List Nat),
    buf.drop (4 + i * 40) = encodeBlocks ts i rest →
    nmRest.length = rest.length →
    (∀ k, k < rest.length → names[i + k]? = nmRest[k]?) →
    ts < 2 ^ 64 → (∀ c ∈ rest, c.wf = true) →
    decodeRats buf names fbI i rest.length =
      some (((nmRest.zip rest).map fun p => ratRecords p.1 fbI ts p.2).flatten) := by
  induction rest with
  | nil =>
    intro nmRest names i buf _ hlen _ _ _
    have hnil : nmRest = [] := List.length_eq_zero.mp (by simpa using hlen)
    subst hnil
    simp [decodeRats]
  | cons c rest ih =>
    intro nmRest names i buf hbuf hlen hnm hts hwf
    cases nmRest with
    | nil => simp at hlen
    | cons nm nmRest =>
      have hname : names[i]? = some nm := by
        have := hnm 0 (by simp)
        simpa using this
      have hhead : buf.drop (4 + i * 40) =
          ratBlock i ts c ++ encodeBlocks ts (i + 1) rest := hbuf
      have htail : buf.drop (4 + (i + 1) * 40) = encodeBlocks ts (i + 1) rest := by
        have h40 : 4 + (i + 1) * 40 = (4 + i * 40) + 40 := by ring
        rw [h40, ← List.drop_drop, hhead,
          List.drop_left' (ratBlock_length i ts c)]
      have hrec := ih nmRest names (i + 1) buf htail (by simpa using hlen)
        (fun k hk => by
          have := hnm (k + 1) (by simpa using Nat.succ_lt_succ hk)
          simpa [Nat.add_assoc, Nat.add_comm 1 k] using this)
        hts (fun c' hc' => hwf c' (List.mem_cons_of_mem _ hc'))
      have hdec : decodeRatEntries buf (4 + i * 40) nm fbI =
          ratRecords nm fbI ts c := by
        rw [decodeRatEntries_shift, hhead,
          decodeRatEntries_ratBlock _ _ _ _ _ _ hts (hwf c (List.mem_cons_self c rest))]
      simp only [List.length_cons, decodeRats, hname, hrec,
        hdec, List.zip_cons_cons, List.map_cons, List.flatten_cons]
      rfl

/-- C1: a feedback report encoded by `FeedbackSender::commThread` from known
samples — the shared cycle timestamp `ts` with per-interface throughputs for
slot t, and the `tm1Info`/`tm2Info` history samples for slots t-1/t-2 —
decodes under `FeedbackReceiver::readFeedbackMessage` to exactly one record
per (interface, slot) pair whose timestamp is non-zero, carrying the
identical (timestamp, throughput) pair, and to no record for any slot whose
timestamp is zero (`slotRecord` emits nothing for a zero timestamp, and
absent history slots are zero-filled). -/
theorem feedback_roundtrip (fbI ts : Nat) (names : List String)
    (cycles : List IfaceCycle) (hlen : names.length = cycles.length)
    (hts : ts < 2 ^ 64) (hN : cycles.length < 2 ^ 32)
    (hwf : ∀ c ∈ cycles, c.wf = true) :
    readFeedbackMessage (encodeReport ts cycles) names fbI =
      some (((names.zip cycles).map fun p => ratRecords p.1 fbI ts p.2).flatten) := by
  have hmod : cycles.length % 2 ^ 32 < 256 ^ 4 := by
    have h4 : (256 : Nat) ^ 4 = 2 ^ 32 := by norm_num
    rw [h4]
    exact Nat.mod_lt _ (by norm_num)
  have hhdr : readBE (encodeReport ts cycles) 0 4 = cycles.length := by
    rw [encodeReport,
      readBE_toBytesBE (cycles.length % 2 ^ 32) 4 (encodeBlocks ts 0 cycles) hmod]
    exact Nat.mod_eq_of_lt hN
  have hdrop : (encodeReport ts cycles).drop (4 + 0 * 40) = encodeBlocks ts 0 cycles := by
    rw [encodeReport]
    exact List.drop_left' (toBytesBE_length 4 (cycles.length % 2 ^ 32))
  have hget : ∀ k, k < cycles.length → names[0 + k]? = names[k]? := by
    intro k _
    rw [Nat.zero_add]
  rw [readFeedbackMessage, hhdr]
  exact decodeRats_encodeBlocks ts fbI cycles names names 0 (encodeReport ts cycles)
    hdrop hlen hget hts hwf

/-- Witness for C1 at the spec's example: two interfaces, slot-t samples
(1000, 500) and (1000, 1200), zero-filled t-1/t-2 slots; decoding yields
exactly two records, none for the zero slots. -/
theorem feedback_roundtrip_witness :
    (["lo", "802.11ac"] : List String).length =
        ([⟨500, some ⟨0, 0⟩, some ⟨0, 0⟩⟩, ⟨1200, some ⟨0, 0⟩, some ⟨0, 0⟩⟩] :
          List IfaceCycle).length ∧
      readFeedbackMessage
          (encodeReport 1000
            [⟨500, some ⟨0, 0⟩, some ⟨0, 0⟩⟩, ⟨1200, some ⟨0, 0⟩, some ⟨0, 0⟩⟩])
          ["lo", "802.11ac"] 100 =
        some ((((["lo", "802.11ac"] : List String).zip
              [⟨500, some ⟨0, 0⟩, some ⟨0, 0⟩⟩,
                ⟨1200, some ⟨0, 0⟩, some ⟨0, 0⟩⟩]).map
            fun p => ratRecords p.1 100 1000 p.2).flatten) :=
  ⟨rfl, feedback_roundtrip 100 1000 _ _ rfl (by decide) (by decide) (by decide)⟩

theorem drop_append_of_len {α : Type} (x y : List α) (n m : Nat)
    (h : x.length = n) : (x ++ y).drop (n + m) = y.drop m := by
  subst h
  exact List.drop_append m

theorem encodeBlocks_drop (ts : Nat) (cs : List IfaceCycle) :
    ∀ (j i : Nat) (h : i < cs.length), ∃ rest,
      (encodeBlocks ts j cs).drop (40 * i) = ratBlock (j + i) ts cs[i] ++ rest := by
  induction cs with
  | nil => intro j i h; simp at h
  | cons c cs ih =>
    intro j i h
    cases i with
    | zero => exact ⟨encodeBlocks ts (j + 1) cs, by simp [encodeBlocks]⟩
    | succ i =>
      obtain ⟨rest, hrest⟩ := ih (j + 1) i (by simpa using Nat.lt_of_succ_lt_succ h)
      refine ⟨rest, ?_⟩
      have hmul : 40 * (i + 1) = 40 + 40 * i := by ring
      rw [encodeBlocks, hmul, drop_append_of_len _ _ _ _ (ratBlock_length j ts c),
        hrest]
      simp [Nat.add_assoc, Nat.add_comm 1 i]

/-- C5: the report built by `FeedbackSender::commThread` is exactly
`4 + 40*N` bytes for `N` configured data-receiver interface names; its
first 4 bytes are `N` as a `uint32` in network byte order; the block of
interface `i` starts at offset `4 + 40*i` with the 4-byte `interfaceIndex`
— the only integer field stored in host (little-endian) byte order —
followed by the three 12-byte samples (slot t at relative offset 4, as
`ratBlock` lays out slots t-1 and t-2 at 16 and 28). -/
theorem feedback_wire_format (ts : Nat) (cycles : List IfaceCycle)
    (hN : cycles.length < 2 ^ 32) :
    (encodeReport ts cycles).length = 4 + 40 * cycles.length ∧
      (encodeReport ts cycles).take 4 = toBytesBE 4 cycles.length ∧
      ∀ (i : Nat) (h : i < cycles.length),
        ((encodeReport ts cycles).drop (4 + 40 * i)).take 40 =
            ratBlock i ts cycles[i] ∧
          ((encodeReport ts cycles).drop (4 + 40 * i)).take 4 = toBytesLE 4 i ∧
          ((encodeReport ts cycles).drop (4 + 40 * i + 4)).take 12 =
            sampleBytes ⟨ts, cycles[i].throughput⟩ := by
  have hsplit : ∀ (i : Nat) (hi : i < cycles.length), ∃ rest,
      (encodeReport ts cycles).drop (4 + 40 * i) =
        ratBlock i ts cycles[i] ++ rest := by
    intro i hi
    obtain ⟨rest, hrest⟩ := encodeBlocks_drop ts cycles 0 i hi
    refine ⟨rest, ?_⟩
    rw [encodeReport,
      drop_append_of_len _ _ _ _ (toBytesBE_length 4 (cycles.length % 2 ^ 32)),
      hrest]
    simp
  refine ⟨?_, ?_, ?_⟩
  · rw [encodeReport]
    simp [toBytesBE_length, encodeBlocks_length]
  · rw [encodeReport, Nat.mod_eq_of_lt hN]
    exact List.take_left' (toBytesBE_length 4 cycles.length)
  · intro i h
    obtain ⟨rest, hrest⟩ := hsplit i h
    refine ⟨?_, ?_, ?_⟩
    · rw [hrest]
      exact List.take_left' (ratBlock_length i ts cycles[i])
    · rw [hrest, ratBlock, List.append_assoc, List.append_assoc]
      exact List.take_left' (toBytesLE_length 4 i)
    · rw [← List.drop_drop, hrest, ratBlock,
        List.append_assoc (toBytesLE 4 i),
        List.append_assoc (toBytesLE 4 i),
        List.drop_left' (toBytesLE_length 4 i), List.append_assoc]
      exact List.take_left' (sampleBytes_length _)

/-- Witness for C5: the two-interface example report, block `i = 1`. -/
theorem feedback_wire_format_witness :
    ([⟨500, some ⟨0, 0⟩, some ⟨0, 0⟩⟩, ⟨1200, none, none⟩] :
          List IfaceCycle).length < 2 ^ 32 ∧
      (encodeReport 1000
            [⟨500, some ⟨0, 0⟩, some ⟨0, 0⟩⟩, ⟨1200, none, none⟩]).length =
        4 + 40 * 2 ∧
      ((encodeReport 1000
            [⟨500, some ⟨0, 0⟩, some ⟨0, 0⟩⟩, ⟨1200, none, none⟩]).drop
          (4 + 40 * 1)).take 4 = toBytesLE 4 1 :=
  ⟨by decide,
    (feedback_wire_format 1000 _ (by decide)).1,
    ((feedback_wire_format 1000 _ (by decide)).2.2 1 (by decide)).2.1⟩

theorem decodeRatEntries_congr (buf buf' : List Nat) (off : Nat) (nm : String)
    (fbI : Nat)
    (h : ∀ j, j < 3 →
      readBE buf (off + 4 + j * 12) 8 = readBE buf' (off + 4 + j * 12) 8 ∧
        readBE buf (off + 4 + j * 12 + 8) 4 = readBE buf' (off + 4 + j * 12 + 8) 4) :
    decodeRatEntries buf off nm fbI = decodeRatEntries buf' off nm fbI := by
  obtain ⟨e0, f0⟩ := h 0 (by norm_num)
  obtain ⟨e1, f1⟩ := h 1 (by norm_num)
  obtain ⟨e2, f2⟩ := h 2 (by norm_num)
  simp only [decodeRatEntries, range3_eq, List.flatMap_cons, List.flatMap_nil]
  rw [e0, f0, e1, f1, e2, f2]

theorem decodeRats_congr (buf buf' : List Nat) (names : List String) (fbI : Nat) :
    ∀ (n i : Nat),
    (∀ p nm, i ≤ p → p < i + n →
      decodeRatEntries buf (4 + p * 40) nm fbI =
        decodeRatEntries buf' (4 + p * 40) nm fbI) →
    decodeRats buf names fbI i n = decodeRats buf' names fbI i n := by
  intro n
  induction n with
  | zero => intro i _; rfl
  | succ n ih =>
    intro i h
    cases hnm : names[i]? with
    | none => simp only [decodeRats, hnm]
    | some nm =>
      simp only [decodeRats, hnm]
      rw [ih (i + 1) (fun p nm' hp hp' => h p nm' (by omega) (by omega)),
        h i nm (Nat.le_refl i) (by omega)]

theorem decodeRatEntries_mem (buf : List Nat) (off : Nat) (nm : String)
    (fbI : Nat) (r : DbRecord) (hr : r ∈ decodeRatEntries buf off nm fbI) :
    ∃ j, j < 3 ∧ 0 < readBE buf (off + 4 + j * 12) 8 ∧
      r = ⟨nm, readBE buf (off + 4 + j * 12) 8,
        readBE buf (off + 4 + j * 12 + 8) 4,
        readBE buf (off + 4 + j * 12 + 8) 4 * fbI % 2 ^ 32⟩ := by
  simp only [decodeRatEntries, List.mem_flatMap] at hr
  obtain ⟨j, hj, hmem⟩ := hr
  refine ⟨j, by simpa using hj, ?_⟩
  by_cases hpos : 0 < readBE buf (off + 4 + j * 12) 8
  · simp only [hpos, if_true, List.mem_singleton] at hmem
    exact ⟨hpos, hmem⟩
  · simp [hpos] at hmem

theorem decodeRats_mem (buf : List Nat) (names : List String) (fbI : Nat) :
    ∀ (n i : Nat) (L : List DbRecord),
    decodeRats buf names fbI i n = some L →
    ∀ r ∈ L, ∃ p, i ≤ p ∧ p < i + n ∧ ∃ hp : p < names.length,
      r.rat = names.get ⟨p, hp⟩ ∧ ∃ j, j < 3 ∧
        0 < readBE buf (4 + p * 40 + 4 + j * 12) 8 ∧
        r.timestamp = readBE buf (4 + p * 40 + 4 + j * 12) 8 ∧
        r.throughput = readBE buf (4 + p * 40 + 4 + j * 12 + 8) 4 := by
  intro n
  induction n with
  | zero =>
    intro i L hL r hr
    simp only [decodeRats, Option.some_inj] at hL
    subst hL
    simp at hr
  | succ n ih =>
    intro i L hL r hr
    cases hnm : names[i]? with
    | none => rw [decodeRats, hnm] at hL; exact absurd hL (by simp)
    | some nm =>
      rw [decodeRats, hnm] at hL
      cases hrec : decodeRats buf names fbI (i + 1) n with
      | none => rw [hrec] at hL; exact absurd hL (by simp)
      | some L' =>
        rw [hrec] at hL
        have hL' : decodeRatEntries buf (4 + i * 40) nm fbI ++ L' = L :=
          Option.some_inj.mp hL
        subst hL'
        rcases List.mem_append.mp hr with hhead | htail
        · obtain ⟨j, hj, hpos, hreq⟩ := decodeRatEntries_mem _ _ _ _ _ hhead
          have hplen : i < names.length := (List.getElem?_eq_some_iff.mp hnm).1
          refine ⟨i, Nat.le_refl i, by omega, hplen, ?_, j, hj, hpos, ?_, ?_⟩
          · rw [hreq]
            have := (List.getElem?_eq_some_iff.mp hnm).2
            simp [List.get_eq_getElem, this]
          · rw [hreq]
          · rw [hreq]
        · obtain ⟨p, hp1, hp2, hplen, hrat, hrest⟩ := ih (i + 1) L' hrec r htail
          exact ⟨p, by omega, by omega, hplen, hrat, hrest⟩

/-- C10: the interface name attached to the records decoded from the i-th
40-byte block is the i-th name of the receiver's locally configured
data-sender interface list (positional matching), and the decoded wire
`interfaceIndex` is never used to select the interface: two buffers that
agree on the RAT count and on every sample field — but may differ
arbitrarily in every block's 4-byte `interfaceIndex` field — decode
identically, so that field's byte order cannot affect attribution. -/
theorem feedback_positional_attribution :
    (∀ (buf buf' : List Nat) (names : List String) (fbI : Nat),
      readBE buf 0 4 = readBE buf' 0 4 →
      (∀ i, i < readBE buf 0 4 → ∀ j, j < 3 →
        readBE buf (4 + i * 40 + 4 + j * 12) 8 =
            readBE buf' (4 + i * 40 + 4 + j * 12) 8 ∧
          readBE buf (4 + i * 40 + 4 + j * 12 + 8) 4 =
            readBE buf' (4 + i * 40 + 4 + j * 12 + 8) 4) →
      readFeedbackMessage buf names fbI = readFeedbackMessage buf' names fbI) ∧
    (∀ (buf : List Nat) (names : List String) (fbI : Nat) (L : List DbRecord),
      readFeedbackMessage buf names fbI = some L →
      ∀ r ∈ L, ∃ p, ∃ hp : p < names.length, r.rat = names.get ⟨p, hp⟩ ∧
        p < readBE buf 0 4 ∧ ∃ j, j < 3 ∧
          r.timestamp = readBE buf (4 + p * 40 + 4 + j * 12) 8 ∧
          r.throughput = readBE buf (4 + p * 40 + 4 + j * 12 + 8) 4) := by
  constructor
  · intro buf buf' names fbI h1 h2
    rw [readFeedbackMessage, readFeedbackMessage, ← h1]
    refine decodeRats_congr buf buf' names fbI (readBE buf 0 4) 0 ?_
    intro p nm _ hp
    refine decodeRatEntries_congr buf buf' (4 + p * 40) nm fbI ?_
    intro j hj
    exact h2 p (by omega) j hj
  · intro buf names fbI L hL r hr
    obtain ⟨p, _, hp2, hplen, hrat, j, hj, _, hts, htp⟩ :=
      decodeRats_mem buf names fbI (readBE buf 0 4) 0 L hL r hr
    exact ⟨p, hplen, hrat, by omega, j, hj, hts, htp⟩

/-- Witness for C10: a one-interface report and a copy of it whose
`interfaceIndex` bytes are overwritten with garbage decode identically,
and the decoded record's name is the 0-th local data-sender name. -/
theorem feedback_positional_attribution_witness :
    readBE (encodeReport 1000 [⟨500, none, none⟩]) 0 4 =
        readBE ((encodeReport 1000 [⟨500, none, none⟩]).take 4 ++
          ([9, 9, 9, 9] ++ (encodeReport 1000 [⟨500, none, none⟩]).drop 8)) 0 4 ∧
      readFeedbackMessage (encodeReport 1000 [⟨500, none, none⟩]) ["lo"] 100 =
        readFeedbackMessage ((encodeReport 1000 [⟨500, none, none⟩]).take 4 ++
          ([9, 9, 9, 9] ++ (encodeReport 1000 [⟨500, none, none⟩]).drop 8)) ["lo"] 100 ∧
      readFeedbackMessage (encodeReport 1000 [⟨500, none, none⟩]) ["lo"] 100 =
        some [⟨"lo", 1000, 500, 50000⟩] ∧
      ∃ p, ∃ hp : p < (["lo"] : List String).length,
        (⟨"lo", 1000, 500, 50000⟩ : DbRecord).rat = (["lo"] : List String).get ⟨p, hp⟩ ∧
        p < readBE (encodeReport 1000 [⟨500, none, none⟩]) 0 4 ∧ ∃ j, j < 3 ∧
          (⟨"lo", 1000, 500, 50000⟩ : DbRecord).timestamp =
            readBE (encodeReport 1000 [⟨500, none, none⟩]) (4 + p * 40 + 4 + j * 12) 8 ∧
          (⟨"lo", 1000, 500, 50000⟩ : DbRecord).throughput =
            readBE (encodeReport 1000 [⟨500, none, none⟩]) (4 + p * 40 + 4 + j * 12 + 8) 4 :=
  ⟨by decide,
    feedback_positional_attribution.1 _ _ _ _ (by decide) (by decide),
    by decide,
    feedback_positional_attribution.2 _ ["lo"] 100 [⟨"lo", 1000, 500, 50000⟩]
      (by decide) ⟨"lo", 1000, 500, 50000⟩ (by decide)⟩

/-! ## Throughput computation (`FeedbackSender::commThread`)

`sleepingInterval` starts as `feedbackInterval - (currentMillis %
feedbackInterval)` (`FeedbackSender.cc` line 151) and is refreshed at the
end of every cycle from the cycle's end timestamp (line 266); the next
cycle's throughput divides by THIS value (line 210), not by the configured
`feedbackInterval` itself. -/

/-- `sleepingInterval = feedbackInterval - (endMillis % feedbackInterval)`
(`FeedbackSender.cc` lines 151 and 262-266): the milliseconds remaining
from `endMillis` to the next interval boundary. -/
def sleepingIntervalOf (feedbackInterval endMillis : Nat) : Nat :=
  feedbackInterval - endMillis % feedbackInterval

/-- `throughput = (nbytes * 8) / sleepingInterval` (`FeedbackSender.cc`
line 210): `nbytes` is a `uint32_t`, so `nbytes * 8` is computed modulo
`2^32` before the (exact, integer) division. -/
def throughputOf (nbytes sleepInt : Nat) : Nat :=
  nbytes * 8 % 2 ^ 32 / sleepInt

/-- The throughput value written into the slot-t sample of a cycle whose
preceding sleep was computed from end timestamp `endMillis`
(`FeedbackSender.cc` lines 210 and 262-266 combined). -/
def feedbackThroughput (nbytes feedbackInterval endMillis : Nat) : Nat :=
  throughputOf nbytes (sleepingIntervalOf feedbackInterval endMillis)

/-- The spec's formula, modelled from the spec's words for comparison:
`throughput = accumulatedBytes * 8 / intervalMillis` with `intervalMillis`
the configured feedback interval. -/
def specThroughput (nbytes feedbackInterval : Nat) : Nat :=
  nbytes * 8 / feedbackInterval

/-- Counterexample to C4: with the default 100 ms feedback interval, a
cycle whose previous iteration ended at wall-clock millisecond 1050 sleeps
50 ms and then divides by 50, not by 100: for a 100-byte snapshot the code
writes throughput 16 while the claimed formula gives 8. -/
theorem feedbackThroughput_ne_spec :
    feedbackThroughput 100 100 1050 = 16 ∧
      specThroughput 100 100 = 8 ∧
      feedbackThroughput 100 100 1050 ≠ specThroughput 100 100 := by
  refine ⟨by decide, by decide, by decide⟩

/-- C4 (amended): the throughput written into the slot-t sample equals the
snapshotted byte count times 8 (in `uint32_t` arithmetic) divided by the
current `sleepingInterval`, i.e. `feedbackInterval - endMillis %
feedbackInterval` where `endMillis` is the previous cycle's end timestamp;
this coincides with the claimed `accumulatedBytes * 8 / feedbackInterval`
exactly when the previous cycle ended on an interval boundary and the
product does not overflow `uint32_t`. -/
theorem feedbackThroughput_eq (nbytes feedbackInterval endMillis : Nat)
    (hfi : 0 < feedbackInterval) :
    feedbackThroughput nbytes feedbackInterval endMillis =
        nbytes * 8 % 2 ^ 32 / (feedbackInterval - endMillis % feedbackInterval) ∧
      (endMillis % feedbackInterval = 0 → nbytes * 8 < 2 ^ 32 →
        feedbackThroughput nbytes feedbackInterval endMillis =
          specThroughput nbytes feedbackInterval) := by
  constructor
  · rfl
  · intro hal hov
    simp only [feedbackThroughput, throughputOf, sleepingIntervalOf,
      specThroughput, hal, Nat.sub_zero]
    rw [Nat.mod_eq_of_lt hov]

/-- Witness for the amended C4 at an aligned cycle end. -/
theorem feedbackThroughput_eq_witness :
    0 < 100 ∧ (1000 : Nat) % 100 = 0 ∧ (100 : Nat) * 8 < 2 ^ 32 ∧
      feedbackThroughput 100 100 1000 = specThroughput 100 100 :=
  ⟨by decide, by decide, by decide,
    (feedbackThroughput_eq 100 100 1000 (by decide)).2 (by decide) (by decide)⟩

/-! ## Interface-id assignment (`WiperfUtility::readIfaces` / `readIfnames`)

An `ifaces` config entry is modelled as a name plus an optional validated
address: `none` covers both a missing address and one rejected by
`inet_pton` — in either case the source logs, skips the insert, and still
advances the entry counter `i` (`WiperfUtility.cc` lines 85-137).  Entries
with no name token hit `continue` before `++i` in `readIfaces` and are
skipped by `readIfnames` too, so they are simply absent from the model's
entry list. -/

/-- First-match association lookup on the id map (the model of
`ifaceMap.find(iname)`). -/
def idLookup : List (String × Nat) → String → Option Nat
  | [], _ => none
  | (nm, i) :: rest, x => if nm = x then some i else idLookup rest x

/-- The entry loop of `WiperfUtility::readIfaces` (lines 85-137), reduced
to its `ifaceId` assignments: a name is inserted with `ifaceId = i` at the
first entry carrying it with a valid address (line 111), later entries for
the same name keep the old id; `i` advances on every entry. -/
def readIfacesIdsGo : Nat → List (String × Nat) → List (String × Option String) →
    List (String × Nat)
  | _, acc, [] => acc
  | i, acc, (nm, addr?) :: rest =>
    match addr? with
    | some _ =>
      readIfacesIdsGo (i + 1)
        (if (idLookup acc nm).isSome then acc else acc ++ [(nm, i)]) rest
    | none => readIfacesIdsGo (i + 1) acc rest

/-- The `ifaceId` assignments of one `readIfaces` call over an initially
empty map (the `data-receiver` pass is the first to populate
`dataReceiverIfaces` in `FeedbackSender::readConfig`, line 43). -/
def readIfacesIds (entries : List (String × Option String)) : List (String × Nat) :=
  readIfacesIdsGo 0 [] entries

/-- `WiperfUtility::readIfnames` (lines 147-188): every entry with a name
token contributes its name, regardless of its address. -/
def readIfnamesOf (entries : List (String × Option String)) : List String :=
  entries.map Prod.fst

theorem idLookup_append_of_isSome (l₁ l₂ : List (String × Nat)) (x : String)
    (h : (idLookup l₁ x).isSome) :
    idLookup (l₁ ++ l₂) x = idLookup l₁ x := by
  induction l₁ with
  | nil => simp [idLookup] at h
  | cons e rest ih =>
    obtain ⟨nm, i⟩ := e
    by_cases hx : nm = x
    · simp [idLookup, hx]
    · simp only [idLookup, hx, if_false] at h ⊢
      exact ih h

theorem idLookup_append_of_none (l₁ l₂ : List (String × Nat)) (x : String)
    (h : idLookup l₁ x = none) :
    idLookup (l₁ ++ l₂) x = idLookup l₂ x := by
  induction l₁ with
  | nil => simp
  | cons e rest ih =>
    obtain ⟨nm, i⟩ := e
    by_cases hx : nm = x
    · simp [idLookup, hx] at h
    · simp only [idLookup, hx, if_false] at h ⊢
      exact ih h

theorem readIfacesIdsGo_preserve (entries : List (String × Option String)) :
    ∀ (k : Nat) (acc : List (String × Nat)) (x : String),
    (idLookup acc x).isSome →
    idLookup (readIfacesIdsGo k acc entries) x = idLookup acc x := by
  induction entries with
  | nil => intro k acc x _; rfl
  | cons e rest ih =>
    intro k acc x hx
    obtain ⟨nm, addr?⟩ := e
    cases addr? with
    | none => exact ih (k + 1) acc x hx
    | some a =>
      simp only [readIfacesIdsGo]
      cases hin : (idLookup acc nm).isSome with
      | true =>
        rw [if_pos rfl]
        exact ih (k + 1) acc x hx
      | false =>
        rw [if_neg Bool.false_ne_true]
        rw [ih (k + 1) _ x (by rw [idLookup_append_of_isSome _ _ _ hx]; exact hx),
          idLookup_append_of_isSome _ _ _ hx]

theorem readIfacesIdsGo_lookup (entries : List (String × Option String)) :
    ∀ (k : Nat) (acc : List (String × Nat)),
    (∀ e ∈ entries, e.2.isSome = true) → (entries.map Prod.fst).Nodup →
    (∀ nm ∈ entries.map Prod.fst, idLookup acc nm = none) →
    ∀ (p : Nat) (hp : p < entries.length),
      idLookup (readIfacesIdsGo k acc entries) (entries.get ⟨p, hp⟩).1 =
        some (k + p) := by
  induction entries with
  | nil => intro _ _ _ _ _ p hp; simp at hp
  | cons e rest ih =>
    intro k acc hsome hnodup hfresh p hp
    obtain ⟨nm, addr?⟩ := e
    have haddr : addr?.isSome = true := hsome ⟨nm, addr?⟩ (List.mem_cons_self _ _)
    obtain ⟨a, ha⟩ := Option.isSome_iff_exists.mp haddr
    subst ha
    have hlk : idLookup acc nm = none := hfresh nm (by simp)
    have hcons : (nm :: rest.map Prod.fst).Nodup := by simpa using hnodup
    have hnm_rest : nm ∉ rest.map Prod.fst := (List.nodup_cons.mp hcons).1
    have hrest_nodup : (rest.map Prod.fst).Nodup := (List.nodup_cons.mp hcons).2
    simp only [readIfacesIdsGo]
    rw [if_neg (by simp [hlk])]
    cases p with
    | zero =>
      simp only [List.get]
      rw [readIfacesIdsGo_preserve rest (k + 1) _ nm
          (by rw [idLookup_append_of_none _ _ _ hlk]; simp [idLookup]),
        idLookup_append_of_none _ _ _ hlk]
      simp [idLookup]
    | succ p =>
      have hp' : p < rest.length := by simpa using Nat.lt_of_succ_lt_succ hp
      have hstep := ih (k + 1) (acc ++ [(nm, k)])
        (fun e he => hsome e (List.mem_cons_of_mem _ he))
        hrest_nodup
        (fun nm' hnm' => by
          rw [idLookup_append_of_none _ _ _ (hfresh nm' (by simp [hnm']))]
          have hne : nm ≠ nm' := fun hcontra => hnm_rest (hcontra ▸ hnm')
          simp [idLookup, hne])
        p hp'
      simp only [List.get]
      rw [hstep]
      congr 1
      omega

/-- Counterexample to C6: in a configuration whose `data-receiver` `ifaces`
value lists the name `a` twice (both entries valid), `readIfnames` yields
`["a", "a"]` and the encoder's second block — which belongs to interface
`a` — carries the loop counter `1` as its `interfaceIndex`, while the
`InterfaceRecord` of `a` was assigned `ifaceId = 0` at config-load time:
the wire field is the block position, not the record's index. -/
theorem encode_interfaceIndex_counterexample :
    readIfnamesOf [("a", some ("1.1.1.1")), ("a", some ("2.2.2.2"))] =
        ["a", "a"] ∧
      idLookup (readIfacesIds [("a", some ("1.1.1.1")), ("a", some ("2.2.2.2"))])
          "a" = some 0 ∧
      ((encodeReport 1000 [⟨500, none, none⟩, ⟨500, none, none⟩]).drop
            (4 + 40 * 1)).take 4 = toBytesLE 4 1 ∧
      toBytesLE 4 1 ≠ toBytesLE 4 0 := by
  refine ⟨by decide, by decide, by decide, by decide⟩

/-- C6 (amended): the `interfaceIndex` written into the i-th block of the
feedback report is the block's position `i` in the configured
data-receiver interface-name list (the encoder's loop counter,
`FeedbackSender.cc` line 217), not the `InterfaceRecord`'s stored
`ifaceId`; the two coincide for every configuration in which all `ifaces`
entries carry valid addresses and no name repeats, since `readIfaces` then
assigns each name its entry position. -/
theorem encode_interfaceIndex_positional :
    (∀ (ts : Nat) (cycles : List IfaceCycle) (i : Nat), i < cycles.length →
      ((encodeReport ts cycles).drop (4 + 40 * i)).take 4 = toBytesLE 4 i) ∧
      (∀ (entries : List (String × Option String)),
        (∀ e ∈ entries, e.2.isSome = true) → (entries.map Prod.fst).Nodup →
        ∀ (p : Nat) (hp : p < entries.length),
          idLookup (readIfacesIds entries) (entries.get ⟨p, hp⟩).1 = some p) := by
  constructor
  · intro ts cycles i hi
    obtain ⟨rest, hrest⟩ := encodeBlocks_drop ts cycles 0 i hi
    have hdrop : (encodeReport ts cycles).drop (4 + 40 * i) =
        ratBlock i ts cycles[i] ++ rest := by
      rw [encodeReport,
        drop_append_of_len _ _ _ _ (toBytesBE_length 4 (cycles.length % 2 ^ 32)),
        hrest]
      simp
    rw [hdrop, ratBlock, List.append_assoc (toBytesLE 4 i),
      List.append_assoc (toBytesLE 4 i)]
    exact List.take_left' (toBytesLE_length 4 i)
  · intro entries hsome hnodup p hp
    have hgo := readIfacesIdsGo_lookup entries 0 [] hsome hnodup
      (fun nm _ => rfl) p hp
    simpa [readIfacesIds] using hgo

/-- Witness for the amended C6: a single valid, duplicate-free entry. -/
theorem encode_interfaceIndex_positional_witness :
    ((encodeReport 1000 [⟨500, none, none⟩]).drop (4 + 40 * 0)).take 4 =
        toBytesLE 4 0 ∧
      idLookup (readIfacesIds [("a", some ("1.1.1.1"))])
          ((([("a", some ("1.1.1.1"))] : List (String × Option String)).get
            ⟨0, by decide⟩)).1 = some 0 :=
  ⟨encode_interfaceIndex_positional.1 1000 [⟨500, none, none⟩] 0 (by decide),
    encode_interfaceIndex_positional.2 [("a", some ("1.1.1.1"))] (by decide)
      (by decide) 0 (by decide)⟩

/-! ## Configuration reading and exception propagation

`ConfigFile::Value` (`configfile.cc` lines 78-88) throws
`std::runtime_error("does not exist")` for an absent key, and `std::stoi`
throws `std::invalid_argument` for a non-numeric value, but every caller
in `WiperfUtility.cc` (and the `feedback-interval` readers) catches only
`char const*`; `main` has no handler (`dreceiver.cc` lines 33-56), so an
exception of any other dynamic type terminates the process.  Exceptions
are modelled as `Except` values tagged with the thrown type. -/

/-- Dynamic type of a thrown C++ exception, as far as catch-clause
matching here needs it. -/
inductive CppExcKind where
  | charPtr
  | runtimeError
  | invalidArgument
  deriving DecidableEq, Repr

/-- A thrown exception: its dynamic type and payload message. -/
structure CppExc where
  kind : CppExcKind
  msg : String
  deriving DecidableEq, Repr

/-- First-match lookup in the config map `content_` (keys are
`section + '/' + name`, `configfile.cc` line 69). -/
def cfgLookup : List (String × String) → String → Option String
  | [], _ => none
  | (k, v) :: rest, x => if k = x then some v else cfgLookup rest x

/-- `ConfigFile::Value(section, entry)` (`configfile.cc` lines 78-88):
returns the stored string, or throws `std::runtime_error("does not
exist")` when the key is absent. -/
def configFileValue (content : List (String × String)) (sec ent : String) :
    Except CppExc String :=
  match cfgLookup content (sec ++ "/" ++ ent) with
  | some v => Except.ok v
  | none => Except.error ⟨CppExcKind.runtimeError, "does not exist"⟩

/-- Decimal value of a digit string (the accumulator loop inside
`std::stoi`). -/
def parseDigitsGo : Nat → List Char → Nat
  | acc, [] => acc
  | acc, c :: rest => parseDigitsGo (acc * 10 + (c.toNat - 48)) rest

/-- `std::stoi`, restricted to unsigned whole-numeral strings (the C++
function would also accept sign characters, surrounding whitespace and
numeric prefixes; the inputs of these theorems are plain numerals); a
string with no leading digit throws `std::invalid_argument`. -/
def stoi (s : String) : Except CppExc Int :=
  if s.data ≠ [] ∧ s.data.all Char.isDigit then
    Except.ok (Int.ofNat (parseDigitsGo 0 s.data))
  else
    Except.error ⟨CppExcKind.invalidArgument, "stoi"⟩

/-- `WiperfUtility::readPort` (`WiperfUtility.cc` lines 44-66): parse the
section's `port` value, accept it if within 1024..49151, otherwise log and
keep the default — all inside `try { ... } catch (char const* str)`.  Only
a thrown `char const*` is caught (line 58); any other exception type
propagates out of `readPort` (and, no caller catching it, ends the
process). -/
def readPort (content : List (String × String)) (secName : String)
    (defPort : Nat) : Except CppExc Nat :=
  match (configFileValue content secName ("port")).bind stoi with
  | Except.ok portv =>
    Except.ok (if 1024 ≤ portv ∧ portv ≤ 49151 then portv.toNat else defPort)
  | Except.error e =>
    match e.kind with
    | CppExcKind.charPtr => Except.ok defPort
    | _ => Except.error e

/-- C7: out-of-range port values are indeed replaced by the default
(conjuncts 2 and 3: port 80 falls back to 44444, port 8080 is accepted),
but an absent `port` key makes `ConfigFile::Value` throw
`std::runtime_error`, which the `catch (char const*)` clause does not
match: the exception escapes `readPort` (conjunct 1) and, with no
enclosing handler, terminates the process — contradicting the claim that
a missing value falls back to the default without termination. -/
theorem readPort_missing_key_escapes :
    readPort [] ("data-receiver") 44444 =
        Except.error ⟨CppExcKind.runtimeError, "does not exist"⟩ ∧
      readPort [("data-receiver/port", "80")] ("data-receiver") 44444 =
        Except.ok 44444 ∧
      readPort [("data-receiver/port", "8080")] ("data-receiver") 44444 =
        Except.ok 8080 :=
  ⟨rfl, rfl, rfl⟩

/-! ## Receiver byte counter and drain handoff

One interface's shared cells: `IfaceInfo.nbytesAcc` (`uint64_t`, written
by the receive worker, `DataReceiver.cc` lines 168-178), the interface's
`nbytes_reset_value` entry (`uint32_t`, `DataReceiver.hpp` line 54), and
the `FeedbackSender`'s cycle-local `nbytesMap` snapshot of the counter
(`uint32_t`, `FeedbackSender.cc` line 166).  Interfaces are independent
(each worker and each map entry touch only their own name), so the model
is per-interface.  Each source statement is one atomic event; no lock is
held around any of them in the source.  `sumRecv` / `sumDrain` are ghost
accounting fields (total received bytes, total drained bytes), not source
state. -/
structure RxState where
  nbytesAcc : Nat
  pending : Nat
  snap : Nat
  sumRecv : Nat
  sumDrain : Nat
  deriving DecidableEq, Repr

/-- Start state: `nbytesAcc = 0` at socket setup (`DataReceiver.cc` line
134), `nbytes_reset_value` entries start at 0 (line 82). -/
def initRxState : RxState := ⟨0, 0, 0, 0, 0⟩

/-- `RCV_BUF_LEN` (`WiperfUtility.hpp` line 31): upper bound of one
`recv()` result. -/
def rcvBufLen : Nat := 524288

/-- The four atomic accesses of the handoff. -/
inductive RxEvent where
  | recv (b : Nat)
  | fsSnap
  | fsWrite
  | applyDrain
  deriving DecidableEq, Repr

/-- One atomic step.
* `recv b`: the worker adds a `recv()` result to the `uint64_t` counter
  (`DataReceiver.cc` lines 176-178);
* `fsSnap`: the FeedbackSender copies the counter into its `uint32_t`
  cycle-local (`FeedbackSender.cc` lines 165-168, truncating);
* `fsWrite`: the FeedbackSender stores that local into
  `nbytes_reset_value` (`FeedbackSender.cc` lines 172-175);
* `applyDrain`: the worker, seeing a positive pending value, subtracts it
  from the counter (`uint64_t` wrap-around subtraction) and zeroes the
  pending entry (`DataReceiver.cc` lines 168-173). -/
def rxStep (s : RxState) : RxEvent → RxState
  | RxEvent.recv b =>
    { s with nbytesAcc := (s.nbytesAcc + b) % 2 ^ 64, sumRecv := s.sumRecv + b }
  | RxEvent.fsSnap => { s with snap := s.nbytesAcc % 2 ^ 32 }
  | RxEvent.fsWrite => { s with pending := s.snap }
  | RxEvent.applyDrain =>
    if 0 < s.pending then
      { s with nbytesAcc := (s.nbytesAcc + 2 ^ 64 - s.pending) % 2 ^ 64,
               pending := 0, sumDrain := s.sumDrain + s.pending }
    else s

/-- Run a finite interleaving from the start state. -/
def rxRun (events : List RxEvent) : RxState :=
  events.foldl rxStep initRxState

/-- A receive event is realisable when it carries what one `recv()` call
into the `RCV_BUF_LEN` buffer can return: between 1 byte and the buffer
size. -/
def rxEventValid : RxEvent → Bool
  | RxEvent.recv b => decide (0 < b) && decide (b ≤ rcvBufLen)
  | _ => true

/-- The FeedbackSender thread alternates snapshot and pending-write, one
pair per cycle, starting with a snapshot: validity of the trace's
projection onto the FeedbackSender's events. -/
def fsAlternates : Bool → List RxEvent → Bool
  | _, [] => true
  | expectSnap, e :: rest =>
    match e with
    | RxEvent.fsSnap => expectSnap && fsAlternates false rest
    | RxEvent.fsWrite => !expectSnap && fsAlternates true rest
    | _ => fsAlternates expectSnap rest

/-- A trace is realisable when every receive is realisable and the
FeedbackSender events alternate snapshot/write. -/
def rxTraceValid (events : List RxEvent) : Bool :=
  events.all rxEventValid && fsAlternates true events

/-- Counterexample to C2: in the realisable interleaving where a worker
applies an outstanding drain between the FeedbackSender's counter snapshot
and its pending-write, the stale pending value is drained twice: after
`recv 10; snap; write; snap; applyDrain; write; applyDrain` the counter
wraps to `2^64 - 10` while (sum received) − (sum drained) = 10 − 20 < 0,
so the claimed identity (and non-negativity) fails. -/
theorem rx_accounting_counterexample :
    rxTraceValid [RxEvent.recv 10, RxEvent.fsSnap, RxEvent.fsWrite,
        RxEvent.fsSnap, RxEvent.applyDrain, RxEvent.fsWrite,
        RxEvent.applyDrain] = true ∧
      (rxRun [RxEvent.recv 10, RxEvent.fsSnap, RxEvent.fsWrite,
        RxEvent.fsSnap, RxEvent.applyDrain, RxEvent.fsWrite,
        RxEvent.applyDrain]).nbytesAcc = 2 ^ 64 - 10 ∧
      (rxRun [RxEvent.recv 10, RxEvent.fsSnap, RxEvent.fsWrite,
        RxEvent.fsSnap, RxEvent.applyDrain, RxEvent.fsWrite,
        RxEvent.applyDrain]).sumRecv = 10 ∧
      (rxRun [RxEvent.recv 10, RxEvent.fsSnap, RxEvent.fsWrite,
        RxEvent.fsSnap, RxEvent.applyDrain, RxEvent.fsWrite,
        RxEvent.applyDrain]).sumDrain = 20 ∧
      ((rxRun [RxEvent.recv 10, RxEvent.fsSnap, RxEvent.fsWrite,
          RxEvent.fsSnap, RxEvent.applyDrain, RxEvent.fsWrite,
          RxEvent.applyDrain]).nbytesAcc : Int) ≠
        ((rxRun [RxEvent.recv 10, RxEvent.fsSnap, RxEvent.fsWrite,
          RxEvent.fsSnap, RxEvent.applyDrain, RxEvent.fsWrite,
          RxEvent.applyDrain]).sumRecv : Int) -
        ((rxRun [RxEvent.recv 10, RxEvent.fsSnap, RxEvent.fsWrite,
          RxEvent.fsSnap, RxEvent.applyDrain, RxEvent.fsWrite,
          RxEvent.applyDrain]).sumDrain : Int) := by
  refine ⟨by decide, by decide, by decide, by decide, by decide⟩

/-- Counterexample to C3: the same stale-snapshot interleaving, stopped
one event earlier, reaches a state with `nbytes_reset_value = 10` while
`accumulatedBytes = 0`: the claimed invariant `pending ≤ accumulatedBytes`
does not hold in every reachable state. -/
theorem rx_pending_invariant_counterexample :
    rxTraceValid [RxEvent.recv 10, RxEvent.fsSnap, RxEvent.fsWrite,
        RxEvent.fsSnap, RxEvent.applyDrain, RxEvent.fsWrite] = true ∧
      (rxRun [RxEvent.recv 10, RxEvent.fsSnap, RxEvent.fsWrite,
        RxEvent.fsSnap, RxEvent.applyDrain, RxEvent.fsWrite]).pending = 10 ∧
      (rxRun [RxEvent.recv 10, RxEvent.fsSnap, RxEvent.fsWrite,
        RxEvent.fsSnap, RxEvent.applyDrain, RxEvent.fsWrite]).nbytesAcc = 0 ∧
      ¬((rxRun [RxEvent.recv 10, RxEvent.fsSnap, RxEvent.fsWrite,
          RxEvent.fsSnap, RxEvent.applyDrain, RxEvent.fsWrite]).pending ≤
        (rxRun [RxEvent.recv 10, RxEvent.fsSnap, RxEvent.fsWrite,
          RxEvent.fsSnap, RxEvent.applyDrain, RxEvent.fsWrite]).nbytesAcc) := by
  refine ⟨by decide, by decide, by decide, by decide⟩

/-- Coarser events in which the FeedbackSender's snapshot and pending-write
are adjacent (no drain is applied between them) — the interleavings under
which the drain protocol is correct. -/
inductive RxHEvent where
  | recv (b : Nat)
  | snapWrite
  | applyDrain
  deriving DecidableEq, Repr

/-- Expansion of a coarse event into atomic events. -/
def hToEvents : RxHEvent → List RxEvent
  | RxHEvent.recv b => [RxEvent.recv b]
  | RxHEvent.snapWrite => [RxEvent.fsSnap, RxEvent.fsWrite]
  | RxHEvent.applyDrain => [RxEvent.applyDrain]

/-- The atomic trace of a coarse trace. -/
def hTrace (hl : List RxHEvent) : List RxEvent :=
  hl.flatMap hToEvents

/-- One coarse step. -/
def rxStepH (s : RxState) (h : RxHEvent) : RxState :=
  (hToEvents h).foldl rxStep s

/-- Run of a coarse trace. -/
def rxRunH (hl : List RxHEvent) : RxState :=
  hl.foldl rxStepH initRxState

theorem rxRun_hTrace (hl : List RxHEvent) : rxRun (hTrace hl) = rxRunH hl := by
  suffices hgen : ∀ (l : List RxHEvent) (s : RxState),
      (hTrace l).foldl rxStep s = l.foldl rxStepH s by
    exact hgen hl initRxState
  intro l
  induction l with
  | nil => intro s; rfl
  | cons h rest ih =>
    intro s
    simp only [hTrace, List.flatMap_cons, List.foldl_append, List.foldl_cons]
    exact ih _

/-- The handoff invariant: total drained never exceeds total received, the
counter holds exactly their difference, and the pending drain never
exceeds the counter. -/
def RxInv (s : RxState) : Prop :=
  s.sumDrain ≤ s.sumRecv ∧ s.nbytesAcc = s.sumRecv - s.sumDrain ∧
    s.pending ≤ s.nbytesAcc

theorem sumRecv_le_rxStepH (s : RxState) (h : RxHEvent) :
    s.sumRecv ≤ (rxStepH s h).sumRecv := by
  cases h with
  | recv b => simp [rxStepH, hToEvents, rxStep]
  | snapWrite => simp [rxStepH, hToEvents, rxStep]
  | applyDrain =>
    simp only [rxStepH, hToEvents, List.foldl_cons, List.foldl_nil, rxStep]
    by_cases hp : 0 < s.pending <;> simp [hp]

theorem rxInv_stepH (s : RxState) (h : RxHEvent) (hs : RxInv s)
    (hbound : (rxStepH s h).sumRecv < 2 ^ 64) : RxInv (rxStepH s h) := by
  obtain ⟨h1, h2, h3⟩ := hs
  cases h with
  | recv b =>
    simp only [rxStepH, hToEvents, List.foldl_cons, List.foldl_nil, rxStep] at hbound ⊢
    have hacc : s.nbytesAcc + b < 2 ^ 64 := by omega
    rw [RxInv]
    simp only [Nat.mod_eq_of_lt hacc]
    omega
  | snapWrite =>
    simp only [rxStepH, hToEvents, List.foldl_cons, List.foldl_nil, rxStep]
    refine ⟨h1, h2, ?_⟩
    calc s.nbytesAcc % 2 ^ 32 ≤ s.nbytesAcc := Nat.mod_le _ _
      _ = s.nbytesAcc := rfl
  | applyDrain =>
    simp only [rxStepH, hToEvents, List.foldl_cons, List.foldl_nil, rxStep] at hbound ⊢
    by_cases hp : 0 < s.pending
    · simp only [hp, if_true] at hbound ⊢
      have haccb : s.nbytesAcc < 2 ^ 64 := by omega
      have hsub : s.nbytesAcc + 2 ^ 64 - s.pending =
          2 ^ 64 + (s.nbytesAcc - s.pending) := by omega
      rw [RxInv]
      simp only [hsub, Nat.add_mod_left,
        Nat.mod_eq_of_lt (by omega : s.nbytesAcc - s.pending < 2 ^ 64)]
      omega
    · simp only [hp, if_false]
      exact ⟨h1, h2, h3⟩

theorem rxInv_runH (hl : List RxHEvent)
    (hbound : (rxRunH hl).sumRecv < 2 ^ 64) : RxInv (rxRunH hl) := by
  induction hl using List.reverseRecOn with
  | nil => exact ⟨Nat.le_refl 0, rfl, Nat.le_refl 0⟩
  | append_singleton hl h ih =>
    have hstep : rxRunH (hl ++ [h]) = rxStepH (rxRunH hl) h := by
      simp [rxRunH, List.foldl_append]
    rw [hstep] at hbound ⊢
    exact rxInv_stepH _ _ (ih (Nat.lt_of_le_of_lt (sumRecv_le_rxStepH _ _) hbound))
      hbound

/-- C2 (amended): for every interleaving of receive events and drain
operations in which the FeedbackSender's snapshot and pending-write are
not separated by a worker drain (coarse traces), and whose total received
byte count fits the `uint64_t` counter, the counter equals (sum of
received byte counts) − (sum of drained amounts) after the sequence, and
the drained total never exceeds the received total (so the counter value
is never negative).  Without those provisos the identity fails: see the
stale-snapshot interleaving of `rx_accounting_counterexample`. -/
theorem rx_counter_accounting (hl : List RxHEvent)
    (hbound : (rxRun (hTrace hl)).sumRecv < 2 ^ 64) :
    (rxRun (hTrace hl)).sumDrain ≤ (rxRun (hTrace hl)).sumRecv ∧
      (rxRun (hTrace hl)).nbytesAcc =
        (rxRun (hTrace hl)).sumRecv - (rxRun (hTrace hl)).sumDrain := by
  rw [rxRun_hTrace] at hbound ⊢
  obtain ⟨h1, h2, _⟩ := rxInv_runH hl hbound
  exact ⟨h1, h2⟩

/-- Witness for the amended C2: receive 5 bytes, one snapshot/write pair,
one applied drain. -/
theorem rx_counter_accounting_witness :
    (rxRun (hTrace [RxHEvent.recv 5, RxHEvent.snapWrite,
        RxHEvent.applyDrain])).sumRecv < 2 ^ 64 ∧
      (rxRun (hTrace [RxHEvent.recv 5, RxHEvent.snapWrite,
        RxHEvent.applyDrain])).sumDrain ≤
        (rxRun (hTrace [RxHEvent.recv 5, RxHEvent.snapWrite,
          RxHEvent.applyDrain])).sumRecv ∧
      (rxRun (hTrace [RxHEvent.recv 5, RxHEvent.snapWrite,
        RxHEvent.applyDrain])).nbytesAcc =
        (rxRun (hTrace [RxHEvent.recv 5, RxHEvent.snapWrite,
          RxHEvent.applyDrain])).sumRecv -
        (rxRun (hTrace [RxHEvent.recv 5, RxHEvent.snapWrite,
          RxHEvent.applyDrain])).sumDrain :=
  ⟨by decide,
    rx_counter_accounting [RxHEvent.recv 5, RxHEvent.snapWrite,
      RxHEvent.applyDrain] (by decide)⟩

/-- C3 (amended): `PendingDrain[name] ≤ accumulatedBytes` holds in every
state reachable by interleavings in which no worker drain intervenes
between the FeedbackSender's snapshot and its pending-write (and while
total received bytes fit the `uint64_t` counter) — the unrestricted
interleavings violate it, see `rx_pending_invariant_counterexample`; and
the worker's drain step subtracts exactly the pending value from the
counter and zeroes the pending entry in that same step, hence before any
subsequent FeedbackSender read. -/
theorem rx_pending_le_counter (hl : List RxHEvent) (s : RxState)
    (hbound : (rxRun (hTrace hl)).sumRecv < 2 ^ 64)
    (hp : 0 < s.pending) (hle : s.pending ≤ s.nbytesAcc)
    (hacc : s.nbytesAcc < 2 ^ 64) :
    (rxRun (hTrace hl)).pending ≤ (rxRun (hTrace hl)).nbytesAcc ∧
      (rxStep s RxEvent.applyDrain).nbytesAcc = s.nbytesAcc - s.pending ∧
      (rxStep s RxEvent.applyDrain).pending = 0 := by
  refine ⟨?_, ?_, ?_⟩
  · rw [rxRun_hTrace] at hbound ⊢
    exact (rxInv_runH hl hbound).2.2
  · simp only [rxStep, hp, if_true]
    have hsub : s.nbytesAcc + 2 ^ 64 - s.pending =
        2 ^ 64 + (s.nbytesAcc - s.pending) := by omega
    simp only [hsub, Nat.add_mod_left]
    exact Nat.mod_eq_of_lt (by omega)
  · simp only [rxStep, hp, if_true]

/-- Witness for the amended C3. -/
theorem rx_pending_le_counter_witness :
    (rxRun (hTrace [RxHEvent.recv 7, RxHEvent.snapWrite])).sumRecv < 2 ^ 64 ∧
      0 < (⟨10, 4, 0, 10, 0⟩ : RxState).pending ∧
      (⟨10, 4, 0, 10, 0⟩ : RxState).pending ≤
        (⟨10, 4, 0, 10, 0⟩ : RxState).nbytesAcc ∧
      (⟨10, 4, 0, 10, 0⟩ : RxState).nbytesAcc < 2 ^ 64 ∧
      ((rxRun (hTrace [RxHEvent.recv 7, RxHEvent.snapWrite])).pending ≤
        (rxRun (hTrace [RxHEvent.recv 7, RxHEvent.snapWrite])).nbytesAcc ∧
        (rxStep ⟨10, 4, 0, 10, 0⟩ RxEvent.applyDrain).nbytesAcc =
          (⟨10, 4, 0, 10, 0⟩ : RxState).nbytesAcc -
            (⟨10, 4, 0, 10, 0⟩ : RxState).pending ∧
        (rxStep ⟨10, 4, 0, 10, 0⟩ RxEvent.applyDrain).pending = 0) :=
  ⟨by decide, by decide, by decide, by decide,
    rx_pending_le_counter [RxHEvent.recv 7, RxHEvent.snapWrite]
      ⟨10, 4, 0, 10, 0⟩ (by decide) (by decide) (by decide) (by decide)⟩

/-! ## Sender single-interface pick (`DataSender::pickRandomIface`)

`DataSender.cc` lines 79-88: the method constructs a FRESH
`std::default_random_engine` (libstdc++: `minstd_rand0`, state range
`[1, 2147483646]`) seeded with the constant `123123123` on EVERY call,
draws one value through
`std::uniform_int_distribution<int>(0, ifaceMap.size())` — an INCLUSIVE
upper bound equal to the table size — and advances `ifaceMap.begin()`
that many times before dereferencing.  `none` models dereferencing the
end iterator (index = size).  The distribution mapping is libstdc++'s
downscaling algorithm for the (always satisfied at these table sizes)
case `urngrange > urange`; its rejection loop is given fuel, never
exhausted on the inputs evaluated here. -/

/-- One `minstd_rand0` engine step: `x := 16807 * x mod 2147483647`. -/
def minstdNext (x : Nat) : Nat := 16807 * x % 2147483647

/-- libstdc++'s mapping of engine output `x` onto the closed range
`[0, b]`: with `uerange = b + 1`, `scaling = 2147483645 / uerange` and
`past = uerange * scaling`, accept `ret = x - 1` when `ret < past` and
return `ret / scaling`, else redraw. -/
def uniformIntIdx : Nat → Nat → Nat → Nat
  | 0, _, _ => 0
  | fuel + 1, x, b =>
    let uerange := b + 1
    let scaling := 2147483645 / uerange
    let past := uerange * scaling
    let ret := x - 1
    if ret < past then ret / scaling else uniformIntIdx fuel (minstdNext x) b

/-- `DataSender::pickRandomIface` over the table's key list (a `std::map`
iterates in sorted key order): draw the index from the freshly re-seeded
engine and advance the iterator; `none` is the end-iterator dereference
reached when the drawn index equals the table size. -/
def pickRandomIface (tableNames : List String) : Option String :=
  tableNames[uniformIntIdx 100 (minstdNext 123123123) tableNames.length]?

/-- Counterexample to C8: the first engine output for seed 123123123 is
1303576200, which libstdc++ maps onto the inclusive range `[0, size]` as
index 1 for sizes 1 and 2.  For a one-interface table the pick therefore
dereferences one past the last entry — not a valid element of the table —
and for a two-interface table it always yields the second entry, so the
first entry is never picked (not uniform). -/
theorem pickRandomIface_counterexample :
    pickRandomIface ["lo"] = none ∧
      pickRandomIface ["802.11ac", "lo"] = some ("lo") := by
  refine ⟨by decide, by decide⟩

/-- C8 (amended): every pick is deterministic — the engine is re-seeded
with the fixed constant on each call, so each call returns the entry at
one fixed index (trivially reproducible across runs): index 1 in the
inclusive range `[0, size]`, which for a single-interface table falls one
past the end instead of yielding a valid element, and for a two-interface
table always selects the second entry, never the first (not uniform). -/
theorem pickRandomIface_deterministic :
    (∀ a : String, pickRandomIface [a] = none) ∧
      ∀ a b : String, pickRandomIface [a, b] = some b := by
  have h1 : uniformIntIdx 100 (minstdNext 123123123) 1 = 1 := by decide
  have h2 : uniformIntIdx 100 (minstdNext 123123123) 2 = 1 := by decide
  constructor
  · intro a
    simp [pickRandomIface, h1]
  · intro a b
    simp [pickRandomIface, h2]

/-! ## Socket teardown and stop (`DataTransfer`)

`closeIfaceSocks` (`DataTransfer.cc` lines 88-96) iterates the interface
map and calls `close(fd)` on every `sockfd != UNINITIALIZED_FD` (-1); it
never writes the `sockfd` fields back, so the map is unchanged.
`stopThread` (lines 25-29) sets `endProgram_` and writes the wake
eventfd; it touches no sockets. -/

/-- The endpoint state relevant to teardown: the interface table's
`sockfd` fields, the shutdown flag, and a count of wake-eventfd writes. -/
structure EndpointState where
  ifaceSocks : List (String × Int)
  endProgram : Bool
  wakeWrites : Nat
  deriving DecidableEq, Repr

/-- The descriptors `closeIfaceSocks` passes to `close()`, in table order:
every `sockfd` other than `UNINITIALIZED_FD = -1`. -/
def closeIfaceSocksCalls (st : EndpointState) : List Int :=
  (st.ifaceSocks.map Prod.snd).filter (fun fd => fd ≠ -1)

/-- The state after `closeIfaceSocks`: unchanged — the source never resets
a `sockfd` field after closing it. -/
def closeIfaceSocksPost (st : EndpointState) : EndpointState := st

/-- `DataTransfer::stopThread`: flip the flag, write the wake eventfd. -/
def stopThread (st : EndpointState) : EndpointState :=
  { st with endProgram := true, wakeWrites := st.wakeWrites + 1 }

/-- Kernel-side effect of a sequence of `close()` calls on the set of open
descriptors: closing an open fd removes it; closing a fd that is not open
is a close on an already-closed handle (EBADF), counted in the second
component. -/
def runCloses : List Int → List Int → List Int × Nat
  | live, [] => (live, 0)
  | live, fd :: rest =>
    if fd ∈ live then runCloses (live.erase fd) rest
    else ((runCloses live rest).1, (runCloses live rest).2 + 1)

/-- Counterexample to C9: for a table with one open socket (fd 5), the
first `closeIfaceSocks` call closes fd 5 cleanly, but since the call
leaves `sockfd` untouched, a second call issues `close(5)` again — one
close on an already-closed handle, contradicting the claimed no-op. -/
theorem closeIfaceSocks_counterexample :
    closeIfaceSocksCalls ⟨[("lo", 5)], false, 0⟩ = [5] ∧
      closeIfaceSocksPost ⟨[("lo", 5)], false, 0⟩ = ⟨[("lo", 5)], false, 0⟩ ∧
      runCloses [5] (closeIfaceSocksCalls ⟨[("lo", 5)], false, 0⟩) = ([], 0) ∧
      runCloses []
          (closeIfaceSocksCalls (closeIfaceSocksPost ⟨[("lo", 5)], false, 0⟩)) =
        ([], 1) := by
  refine ⟨by decide, by decide, by decide, by decide⟩

theorem runCloses_subset (calls : List Int) :
    ∀ live : List Int, (runCloses live calls).1 ⊆ live := by
  induction calls with
  | nil => intro live; exact fun x hx => hx
  | cons fd rest ih =>
    intro live
    by_cases hin : fd ∈ live
    · simp only [runCloses, hin, if_true]
      exact fun x hx => List.erase_subset _ _ (ih (live.erase fd) hx)
    · simp only [runCloses, hin, if_false]
      exact ih live

theorem runCloses_all_live (calls : List Int) :
    ∀ live : List Int, calls.Nodup → live.Nodup →
    (∀ fd ∈ calls, fd ∈ live) →
    (runCloses live calls).2 = 0 ∧ ∀ fd ∈ calls, fd ∉ (runCloses live calls).1 := by
  induction calls with
  | nil => intro live _ _ _; exact ⟨rfl, by simp⟩
  | cons fd rest ih =>
    intro live hnd hlnd hmem
    have hin : fd ∈ live := hmem fd (List.mem_cons_self _ _)
    simp only [runCloses, hin, if_true]
    have hnd' := List.nodup_cons.mp hnd
    have hrec := ih (live.erase fd) hnd'.2 (hlnd.erase fd)
      (fun fd' hfd' =>
        (List.Nodup.mem_erase_iff hlnd).mpr
          ⟨fun hcontra => hnd'.1 (hcontra ▸ hfd'), hmem fd' (List.mem_cons_of_mem _ hfd')⟩)
    refine ⟨hrec.1, ?_⟩
    intro fd' hfd'
    rcases List.mem_cons.mp hfd' with hfd1 | hfd2
    · rw [hfd1]
      intro hcontra
      exact (List.Nodup.mem_erase_iff hlnd).mp
        (runCloses_subset rest (live.erase fd) hcontra) |>.1 rfl
    · exact hrec.2 fd' hfd2

theorem runCloses_none_live (calls : List Int) :
    ∀ live : List Int, (∀ fd ∈ calls, fd ∉ live) →
    (runCloses live calls).2 = calls.length := by
  induction calls with
  | nil => intro live _; rfl
  | cons fd rest ih =>
    intro live hmem
    have hout : fd ∉ live := hmem fd (List.mem_cons_self _ _)
    simp only [runCloses, hout, if_false, List.length_cons]
    rw [ih live (fun fd' hfd' => hmem fd' (List.mem_cons_of_mem _ hfd'))]

/-- C9 (amended): calling `stopThread` twice is harmless — the second call
just re-sets the flag and writes the wake eventfd again, closing nothing —
but `closeIfaceSocks` is not idempotent: it leaves the `sockfd` fields in
place, so while a first call (all table descriptors open and distinct)
closes cleanly, a second call re-issues `close()` on every one of those
already-closed descriptors. -/
theorem stop_and_close_behavior :
    (∀ st : EndpointState, stopThread (stopThread st) =
        { st with endProgram := true, wakeWrites := st.wakeWrites + 2 }) ∧
      (∀ st : EndpointState,
        closeIfaceSocksCalls (closeIfaceSocksPost st) = closeIfaceSocksCalls st) ∧
      ∀ (st : EndpointState) (live : List Int),
        (closeIfaceSocksCalls st).Nodup → live.Nodup →
        (∀ fd ∈ closeIfaceSocksCalls st, fd ∈ live) →
        (runCloses live (closeIfaceSocksCalls st)).2 = 0 ∧
          (runCloses (runCloses live (closeIfaceSocksCalls st)).1
              (closeIfaceSocksCalls (closeIfaceSocksPost st))).2 =
            (closeIfaceSocksCalls st).length := by
  refine ⟨?_, ?_, ?_⟩
  · intro st
    simp [stopThread]
  · intro st
    rfl
  · intro st live hnd hlnd hmem
    obtain ⟨hzero, hgone⟩ := runCloses_all_live _ live hnd hlnd hmem
    exact ⟨hzero, runCloses_none_live _ _ hgone⟩

/-- Witness for the amended C9: two open sockets, fds 5 and 7. -/
theorem stop_and_close_behavior_witness :
    stopThread (stopThread ⟨[("lo", 5), ("eth0", 7)], false, 0⟩) =
        ⟨[("lo", 5), ("eth0", 7)], true, 2⟩ ∧
      (closeIfaceSocksCalls ⟨[("lo", 5), ("eth0", 7)], false, 0⟩).Nodup ∧
      (runCloses [5, 7]
          (closeIfaceSocksCalls ⟨[("lo", 5), ("eth0", 7)], false, 0⟩)).2 = 0 ∧
      (runCloses
          (runCloses [5, 7]
            (closeIfaceSocksCalls ⟨[("lo", 5), ("eth0", 7)], false, 0⟩)).1
          (closeIfaceSocksCalls
            (closeIfaceSocksPost ⟨[("lo", 5), ("eth0", 7)], false, 0⟩))).2 =
        (closeIfaceSocksCalls ⟨[("lo", 5), ("eth0", 7)], false, 0⟩).length :=
  ⟨stop_and_close_behavior.1 ⟨[("lo", 5), ("eth0", 7)], false, 0⟩,
    by decide,
    (stop_and_close_behavior.2.2 ⟨[("lo", 5), ("eth0", 7)], false, 0⟩ [5, 7]
      (by decide) (by decide) (by decide)).1,
    (stop_and_close_behavior.2.2 ⟨[("lo", 5), ("eth0", 7)], false, 0⟩ [5, 7]
      (by decide) (by decide) (by decide)).2⟩
